import Mathlib

set_option maxRecDepth 8000

/-! Shallow embedding of the streaming upload pipeline in
`src/components/AudioRecorder.jsx`: the `retry` helper, the
`ondataavailable` block-staging handler, the `onstop` commit handler, and
the pause/resume/stop lifecycle guards, together with a model of the
Azure block-blob store at the interface the component uses
(`stageBlock`, `commitBlockList`). -/

/-- The base64 alphabet used by the browser `btoa` function. -/
def b64alphabet : List Char :=
  ['A','B','C','D','E','F','G','H','I','J','K','L','M',
   'N','O','P','Q','R','S','T','U','V','W','X','Y','Z',
   'a','b','c','d','e','f','g','h','i','j','k','l','m',
   'n','o','p','q','r','s','t','u','v','w','x','y','z',
   '0','1','2','3','4','5','6','7','8','9','+','/']

/-- Character of a 6-bit group. -/
def b64char (i : Nat) : Char := b64alphabet.getD i '='

/-- Standard base64 encoding of a byte sequence, as performed by `btoa`
on a latin1 string. -/
def b64encode : List Nat → List Char
  | [] => []
  | [b1] => [b64char (b1 / 4), b64char (b1 % 4 * 16), '=', '=']
  | [b1, b2] =>
      [b64char (b1 / 4), b64char (b1 % 4 * 16 + b2 / 16), b64char (b2 % 16 * 4), '=']
  | b1 :: b2 :: b3 :: rest =>
      b64char (b1 / 4) :: b64char (b1 % 4 * 16 + b2 / 16) ::
      b64char (b2 % 16 * 4 + b3 / 64) :: b64char (b3 % 64) :: b64encode rest

/-- Little-endian decimal digits of a number, with explicit fuel so that
the definition is structurally recursive. -/
def decDigitsAux : Nat → Nat → List Nat
  | 0, _ => []
  | _ + 1, 0 => []
  | fuel + 1, n + 1 => (n + 1) % 10 :: decDigitsAux fuel ((n + 1) / 10)

/-- Little-endian decimal digits of `n` (empty for 0). -/
def decDigits (n : Nat) : List Nat := decDigitsAux n n

/-- Value of a little-endian decimal digit list. -/
def fromDigits : List Nat → Nat
  | [] => 0
  | d :: ds => d + 10 * fromDigits ds

/-- ASCII bytes of the decimal rendering of `n`, most significant digit
first, as produced by JavaScript template-literal interpolation of a
number. -/
def decimalBytes (n : Nat) : List Nat := (decDigits n).reverse.map (fun d => 48 + d)

/-- Decimal rendering of `n` as characters. -/
def decimalChars (n : Nat) : List Char :=
  (decDigits n).reverse.map (fun d => Char.ofNat (48 + d))

/-- Decimal rendering of `n` as a string. -/
def natStr (n : Nat) : String := String.mk (decimalChars n)

/-- ASCII bytes of the literal text "block-". -/
def blockMarkerBytes : List Nat := [98, 108, 111, 99, 107, 45]

/-- Bytes of the string interpolated by the source before encoding the
block identifier. -/
def blockIdBytes (now : Nat) : List Nat := blockMarkerBytes ++ decimalBytes now

/-- The block identifier generated per chunk by the source:
the base64 encoding via `btoa` of the string built from the marker text
and the current `Date.now()` value. -/
def blockIdOf (now : Nat) : String := String.mk (b64encode (blockIdBytes now))

/-- Observable outcome of one call to the `retry` helper: the value
returned or error thrown, how many times the wrapped operation was
invoked, and the list of inter-attempt waits performed. A result of
`Except.ok none` models the JavaScript function returning `undefined`
because the loop body was never entered. -/
structure RetryOutcome (ε α : Type) where
  result : Except ε (Option α)
  calls : Nat
  delays : List Nat

/-- The loop of the `retry` helper, starting at attempt number
`attempt` with `remaining` iterations left; the operation is modelled as
a function of the attempt number so a single run can fail on some
attempts and succeed on others. -/
def retryFrom {ε α : Type} (op : Nat → Except ε α) (delay : Nat) : Nat → Nat → RetryOutcome ε α
  | _, 0 => ⟨Except.ok none, 0, []⟩
  | attempt, remaining + 1 =>
    match op attempt with
    | Except.ok a => ⟨Except.ok (some a), 1, []⟩
    | Except.error e =>
      match remaining with
      | 0 => ⟨Except.error e, 1, []⟩
      | r + 1 =>
        let rest := retryFrom op delay (attempt + 1) (r + 1)
        ⟨rest.result, rest.calls + 1, delay :: rest.delays⟩

/-- The `retry` helper of the source: attempts the operation for
`attempt = 1 .. retries`, returning the first success, waiting `delay`
between a failed attempt and the next, and rethrowing the last error
when the final attempt fails. The source defaults are `retries = 3` and
`delay = 1000`. -/
def retry {ε α : Type} (op : Nat → Except ε α) (retries : Nat) (delay : Nat) : RetryOutcome ε α :=
  retryFrom op delay 1 retries

/-- One entry of the recordings list: blob name and retrieval URL. -/
structure Recording where
  name : String
  url : String
deriving DecidableEq

/-- The remote block blob at the interface the component uses: the
uncommitted staged blocks (most recently staged first) and the committed
byte content, if any. -/
structure BlobStore where
  staged : List (String × List Nat)
  committed : Option (List Nat)
deriving DecidableEq

/-- Console messages emitted by the handlers, restricted to the ones the
specification talks about. -/
inductive LogEvent where
  | skippedZeroChunk
  | blockStaged (blockId : String)
  | uploadFailed (blockId : String)
  | noBlocksToCommit
  | commitSucceeded
  | commitFailed
  | startFailed
deriving DecidableEq

/-- The state of the AudioRecorder component together with the remote
store it talks to: the React state flags, the `blockListRef` contents,
the recordings list, and (for observing the commit network interface)
the number of commit network calls made and the identifier list passed
to the most recent commit call. -/
structure RecorderState where
  hasRecorder : Bool
  isRecording : Bool
  isPaused : Bool
  blobName : String
  blockList : List String
  recordings : List Recording
  store : BlobStore
  commitCalls : Nat
  lastCommitIds : Option (List String)
  log : List LogEvent
deriving DecidableEq

/-- The MIME-type preference list of `getMediaRecorderConfig`. -/
def mimeTypes : List (String × String) :=
  [("audio/webm; codecs=opus", "webm"), ("audio/mp4; codecs=mp4a.40.2", "mp4")]

/-- Extension negotiation of `getMediaRecorderConfig`: the extension of
the first supported MIME type, or `none` when the function throws. -/
def getMediaRecorderConfig (isTypeSupported : String → Bool) : Option String :=
  (mimeTypes.find? (fun mt => isTypeSupported mt.1)).map Prod.snd

/-- Container-relative retrieval URL of a blob, standing for
`blockBlobClient.url`. -/
def blobUrl (name : String) : String := "https://storage.example/audio-recordings/" ++ name

/-- Blob name generated at session start from the timestamp and the
negotiated extension. -/
def blobNameOf (now : Nat) (ext : String) : String :=
  "recording-" ++ natStr now ++ "." ++ ext

/-- Component state at mount: no recorder, empty block list, empty
recordings, empty remote store. -/
def initState : RecorderState :=
  { hasRecorder := false
    isRecording := false
    isPaused := false
    blobName := ""
    blockList := []
    recordings := []
    store := { staged := [], committed := none }
    commitCalls := 0
    lastCommitIds := none
    log := [] }

/-- The `startRecording` handler up to installing the event handlers:
negotiates an encoding, derives the blob name, resets the block list and
raises the recording flag; when no MIME type is supported the thrown
error is caught and logged, leaving the session unstarted. -/
def startRecording (st : RecorderState) (isTypeSupported : String → Bool) (now : Nat) : RecorderState :=
  match getMediaRecorderConfig isTypeSupported with
  | some ext =>
    { st with
      hasRecorder := true
      isRecording := true
      isPaused := false
      blobName := blobNameOf now ext
      blockList := [] }
  | none => { st with log := st.log ++ [LogEvent.startFailed] }

/-- Network behaviour of one staged-upload attempt: the environment
makes the first `failures` attempts fail and the rest succeed. -/
def attemptOutcome (failures attempt : Nat) : Except Unit Unit :=
  if attempt ≤ failures then Except.error () else Except.ok ()

/-- The `ondataavailable` handler: a zero-size chunk is skipped with a
warning; otherwise a block identifier is generated, pushed onto the
block list before the upload begins, and the upload is attempted under
`retry`; an exhausted retry is caught and logged without touching the
block list. `stageFailures` is the environment's choice of how many
leading upload attempts fail for this chunk. -/
def onDataAvailable (st : RecorderState) (payload : List Nat) (now : Nat) (stageFailures : Nat) : RecorderState :=
  if 0 < payload.length then
    let blockId := blockIdOf now
    let pushed := { st with blockList := st.blockList ++ [blockId] }
    match (retry (attemptOutcome stageFailures) 3 1000).result with
    | Except.ok _ =>
      { pushed with
        store := { pushed.store with staged := (blockId, payload) :: pushed.store.staged }
        log := pushed.log ++ [LogEvent.blockStaged blockId] }
    | Except.error _ =>
      { pushed with log := pushed.log ++ [LogEvent.uploadFailed blockId] }
  else
    { st with log := st.log ++ [LogEvent.skippedZeroChunk] }

/-- Latest staged payload under a given block identifier. -/
def findPayload (blockId : String) : List (String × List Nat) → Option (List Nat)
  | [] => none
  | (k, v) :: rest => if k = blockId then some v else findPayload blockId rest

/-- Payloads of an identifier list, in order; `none` when some
identifier was never staged. -/
def lookupAll (staged : List (String × List Nat)) : List String → Option (List (List Nat))
  | [] => some []
  | blockId :: rest =>
    match findPayload blockId staged, lookupAll staged rest with
    | some v, some vs => some (v :: vs)
    | _, _ => none

/-- One `commitBlockList` network call against the store: assembles the
committed content from the ordered identifier list, failing when the
list references an identifier that was never staged. -/
def BlobStore.commitOp (s : BlobStore) (ids : List String) : Except Unit BlobStore :=
  match lookupAll s.staged ids with
  | some payloads => Except.ok { s with committed := some payloads.flatten }
  | none => Except.error ()

/-- The retry-wrapped commit of the `onstop` handler; the environment
makes the first `commitFailures` attempts fail at the network level, and
any attempt that reaches the store is validated by `commitOp`. -/
def commitAttempt (st : RecorderState) (commitFailures : Nat) : RetryOutcome Unit BlobStore :=
  retry (fun attempt =>
    if attempt ≤ commitFailures then Except.error () else st.store.commitOp st.blockList) 3 1000

/-- The `onstop` handler: with an empty block list it warns and returns
without any network call; otherwise it commits the block list under
`retry`, and only on success appends the new recording to the list; a
failed commit is caught and logged. -/
def onStop (st : RecorderState) (commitFailures : Nat) : RecorderState :=
  if st.blockList.length = 0 then
    { st with log := st.log ++ [LogEvent.noBlocksToCommit] }
  else
    let r := commitAttempt st commitFailures
    let called := { st with
      commitCalls := st.commitCalls + r.calls
      lastCommitIds := some st.blockList }
    match r.result with
    | Except.ok (some ns) =>
      { called with
        store := ns
        recordings := called.recordings ++
          [{ name := called.blobName, url := blobUrl called.blobName }]
        log := called.log ++ [LogEvent.commitSucceeded] }
    | _ => { called with log := called.log ++ [LogEvent.commitFailed] }

/-- The `pauseRecording` click handler. -/
def pauseRecording (st : RecorderState) : RecorderState :=
  if st.hasRecorder && st.isRecording && !st.isPaused then { st with isPaused := true } else st

/-- The `resumeRecording` click handler. -/
def resumeRecording (st : RecorderState) : RecorderState :=
  if st.hasRecorder && st.isRecording && st.isPaused then { st with isPaused := false } else st

/-- The `stopRecording` click handler (flag updates; the commit itself
runs in the recorder's `onstop` event). -/
def stopRecording (st : RecorderState) : RecorderState :=
  if st.hasRecorder then { st with isRecording := false, isPaused := false } else st

/-- One chunk emission: its payload bytes, the `Date.now()` value
observed in the handler, and the environment's choice of how many
leading upload attempts fail. -/
structure ChunkEv where
  payload : List Nat
  now : Nat
  stageFailures : Nat
deriving DecidableEq

/-- Delivering a list of chunk emissions to the `ondataavailable`
handler in order. -/
def runChunks (st : RecorderState) : List ChunkEv → RecorderState
  | [] => st
  | c :: cs => runChunks (onDataAvailable st c.payload c.now c.stageFailures) cs

/-- The chunks with non-zero payload size. -/
def nonEmptyChunks (chunks : List ChunkEv) : List ChunkEv :=
  chunks.filter (fun c => decide (0 < c.payload.length))

/-- One full session: start, deliver the emitted chunks (including the
final flush), stop, and run the `onstop` commit. -/
def runSession (isTypeSupported : String → Bool) (startNow : Nat) (chunks : List ChunkEv) (commitFailures : Nat) : RecorderState :=
  onStop (stopRecording (runChunks (startRecording initState isTypeSupported startNow) chunks)) commitFailures

/-- A string is transport-safe when all its characters come from the
base64 alphabet or are padding. -/
def isTransportSafe (s : String) : Bool :=
  s.data.all (fun c => b64alphabet.contains c || c = '=')

/-! Lemmas about the retry executor. -/

/-- Case characterization of a three-attempt retry. -/
theorem retry3_cases {ε α : Type} (op : Nat → Except ε α) (d : Nat) :
    retry op 3 d =
      match op 1 with
      | Except.ok a => ⟨Except.ok (some a), 1, []⟩
      | Except.error _ =>
        match op 2 with
        | Except.ok a => ⟨Except.ok (some a), 2, [d]⟩
        | Except.error _ =>
          match op 3 with
          | Except.ok a => ⟨Except.ok (some a), 3, [d, d]⟩
          | Except.error e => ⟨Except.error e, 3, [d, d]⟩ := by
  cases h1 : op 1 <;> cases h2 : op 2 <;> cases h3 : op 3 <;>
    simp [retry, retryFrom, h1, h2, h3]

/-- A three-attempt retry never reports the loop-skipped result. -/
theorem retry3_result_ne_ok_none {ε α : Type} (op : Nat → Except ε α) (d : Nat) :
    (retry op 3 d).result ≠ Except.ok none := by
  rw [retry3_cases]
  cases h1 : op 1 <;> cases h2 : op 2 <;> cases h3 : op 3 <;> simp

/-- A staged-upload retry whose environment fails fewer than three
attempts succeeds. -/
theorem stageRetry_ok (f : Nat) (hf : f < 3) :
    (retry (attemptOutcome f) 3 1000).result = Except.ok (some ()) := by
  interval_cases f <;> rfl

/-- A staged-upload retry whose environment fails at least three
attempts exhausts its budget and rethrows. -/
theorem stageRetry_err (f : Nat) (hf : 3 ≤ f) :
    (retry (attemptOutcome f) 3 1000).result = Except.error () := by
  rw [retry3_cases]
  simp [attemptOutcome, show 1 ≤ f by omega, show 2 ≤ f by omega, show 3 ≤ f by omega]

/-- Unrolling a run of the retry loop across attempts that all fail. -/
theorem retryFrom_allFail {ε α : Type} (op : Nat → Except ε α) (err : Nat → ε)
    (hf : ∀ i, op i = Except.error (err i)) (d : Nat) :
    ∀ rem attempt, 0 < rem →
      retryFrom op d attempt rem =
        ⟨Except.error (err (attempt + rem - 1)), rem, List.replicate (rem - 1) d⟩ := by
  intro rem
  induction rem with
  | zero => intro attempt h; omega
  | succ r ih =>
    intro attempt _
    cases r with
    | zero => simp [retryFrom, hf attempt]
    | succ r2 =>
      have hrec := ih (attempt + 1) (by omega)
      simp only [retryFrom, hf attempt, hrec]
      refine congrArg₂ (fun x y => RetryOutcome.mk x (r2 + 1 + 1) y) ?_ ?_
      · have : attempt + 1 + (r2 + 1) - 1 = attempt + (r2 + 1 + 1) - 1 := by omega
        rw [this]
      · simp [List.replicate_succ]

/-- Unrolling a run of the retry loop across leading failures followed
by a success. -/
theorem retryFrom_failsThenOk {ε α : Type} (op : Nat → Except ε α) (d : Nat) (a : α) :
    ∀ k attempt rem, k < rem →
      (∀ i, attempt ≤ i → i < attempt + k → ∃ e, op i = Except.error e) →
      op (attempt + k) = Except.ok a →
      retryFrom op d attempt rem = ⟨Except.ok (some a), k + 1, List.replicate k d⟩ := by
  intro k
  induction k with
  | zero =>
    intro attempt rem hrem herr hok
    cases rem with
    | zero => omega
    | succ r => simp only [Nat.add_zero] at hok; simp [retryFrom, hok]
  | succ k ih =>
    intro attempt rem hrem herr hok
    cases rem with
    | zero => omega
    | succ r =>
      obtain ⟨e, he⟩ := herr attempt (Nat.le_refl _) (by omega)
      cases r with
      | zero => omega
      | succ r2 =>
        have hrec := ih (attempt + 1) (r2 + 1) (by omega)
          (fun i h1 h2 => herr i (by omega) (by omega))
          (by rw [show attempt + 1 + k = attempt + (k + 1) by omega]; exact hok)
        simp only [retryFrom, he, hrec]
        simp [List.replicate_succ]

/-- C4: an operation that fails exactly `k` times and then succeeds,
retried with a budget `n > k`, returns the success value, is invoked
exactly `k + 1` times, and incurs exactly `k` waits of exactly the
configured delay. -/
theorem retry_failsThenOk_returns {ε α : Type} (op : Nat → Except ε α)
    (n k d : Nat) (a : α) (hkn : k < n)
    (herr : ∀ i, 1 ≤ i → i ≤ k → ∃ e, op i = Except.error e)
    (hok : op (k + 1) = Except.ok a) :
    retry op n d = ⟨Except.ok (some a), k + 1, List.replicate k d⟩ := by
  unfold retry
  exact retryFrom_failsThenOk op d a k 1 n hkn
    (fun i h1 h2 => herr i h1 (by omega))
    (by rw [show (1 : Nat) + k = k + 1 by omega]; exact hok)

/-- Witness for C4 at a concrete operation failing once then
succeeding, with a budget of three attempts. -/
theorem retry_failsThenOk_returns_witness :
    retry (fun i => if i = 1 then (Except.error 0 : Except Nat Nat) else Except.ok 5) 3 2
      = ⟨Except.ok (some 5), 2, [2]⟩ :=
  retry_failsThenOk_returns (fun i => if i = 1 then Except.error 0 else Except.ok 5)
    3 1 2 5 (by omega)
    (fun i h1 h2 => ⟨0, by have h : i = 1 := Nat.le_antisymm h2 h1; subst h; rfl⟩) rfl

/-- C5: an operation that fails on every invocation, retried with a
budget of `n ≥ 1` attempts, is invoked exactly `n` times, waits between
consecutive attempts, and rethrows the failure of the final attempt. -/
theorem retry_allFail_rethrows {ε α : Type} (op : Nat → Except ε α) (err : Nat → ε)
    (n d : Nat) (hn : 1 ≤ n) (hf : ∀ i, op i = Except.error (err i)) :
    retry op n d = ⟨Except.error (err n), n, List.replicate (n - 1) d⟩ := by
  unfold retry
  rw [retryFrom_allFail op err hf d n 1 (by omega)]
  have : 1 + n - 1 = n := by omega
  rw [this]

/-- Witness for C5 at a concrete always-failing operation with a budget
of two attempts. -/
theorem retry_allFail_rethrows_witness :
    retry (fun i => (Except.error i : Except Nat Unit)) 2 7 = ⟨Except.error 2, 2, [7]⟩ :=
  retry_allFail_rethrows (fun i => Except.error i) (fun i => i) 2 7 (by omega) (fun _ => rfl)

/-- C10: a retry with a zero attempt budget never invokes the
operation, performs no delay, and returns normally with the undefined
result rather than raising a failure. -/
theorem retry_zeroBudget_skips {ε α : Type} (op : Nat → Except ε α) (d : Nat) :
    retry op 0 d = ⟨Except.ok none, 0, []⟩ := rfl

/-! Lemmas about the chunk handler and the stop handler. -/

/-- A zero-size chunk only logs a warning. -/
theorem onData_empty (st : RecorderState) (now f : Nat) :
    onDataAvailable st [] now f = { st with log := st.log ++ [LogEvent.skippedZeroChunk] } := by
  simp [onDataAvailable]

/-- A non-empty chunk whose upload retry succeeds appends the fresh
identifier and stages the payload. -/
theorem onData_pos_staged (st : RecorderState) (p : List Nat) (now f : Nat)
    (hp : 0 < p.length) (hf : f < 3) :
    onDataAvailable st p now f =
      { st with
        blockList := st.blockList ++ [blockIdOf now]
        store := { st.store with staged := (blockIdOf now, p) :: st.store.staged }
        log := st.log ++ [LogEvent.blockStaged (blockIdOf now)] } := by
  simp [onDataAvailable, hp, stageRetry_ok f hf]

/-- A non-empty chunk whose upload retry is exhausted still appends the
fresh identifier, logs the failure, and leaves the store untouched. -/
theorem onData_pos_failed (st : RecorderState) (p : List Nat) (now f : Nat)
    (hp : 0 < p.length) (hf : 3 ≤ f) :
    onDataAvailable st p now f =
      { st with
        blockList := st.blockList ++ [blockIdOf now]
        log := st.log ++ [LogEvent.uploadFailed (blockIdOf now)] } := by
  simp [onDataAvailable, hp, stageRetry_err f hf]

/-- Fields the chunk handler never writes. -/
theorem onData_frame (st : RecorderState) (p : List Nat) (now f : Nat) :
    (onDataAvailable st p now f).recordings = st.recordings ∧
    (onDataAvailable st p now f).store.committed = st.store.committed ∧
    (onDataAvailable st p now f).blobName = st.blobName ∧
    (onDataAvailable st p now f).commitCalls = st.commitCalls ∧
    (onDataAvailable st p now f).lastCommitIds = st.lastCommitIds ∧
    (onDataAvailable st p now f).isRecording = st.isRecording ∧
    (onDataAvailable st p now f).isPaused = st.isPaused ∧
    (onDataAvailable st p now f).hasRecorder = st.hasRecorder := by
  unfold onDataAvailable
  split
  · split <;> simp
  · simp

/-- Fields a whole chunk run never writes. -/
theorem runChunks_frame (cs : List ChunkEv) : ∀ st : RecorderState,
    (runChunks st cs).recordings = st.recordings ∧
    (runChunks st cs).store.committed = st.store.committed ∧
    (runChunks st cs).blobName = st.blobName ∧
    (runChunks st cs).commitCalls = st.commitCalls ∧
    (runChunks st cs).lastCommitIds = st.lastCommitIds := by
  induction cs with
  | nil => intro st; simp [runChunks]
  | cons c cs ih =>
    intro st
    have h1 := onData_frame st c.payload c.now c.stageFailures
    have h2 := ih (onDataAvailable st c.payload c.now c.stageFailures)
    simp only [runChunks]
    exact ⟨h2.1.trans h1.1, (h2.2.1).trans h1.2.1, (h2.2.2.1).trans h1.2.2.1,
      (h2.2.2.2.1).trans h1.2.2.2.1, (h2.2.2.2.2).trans h1.2.2.2.2.1⟩

/-- A stop with an empty block list only logs the warning. -/
theorem onStop_empty (st : RecorderState) (cf : Nat) (h : st.blockList = []) :
    onStop st cf = { st with log := st.log ++ [LogEvent.noBlocksToCommit] } := by
  simp [onStop, h]

/-- A stop whose retry-wrapped commit succeeds installs the committed
store and appends the recording. -/
theorem onStop_ok (st : RecorderState) (cf : Nat) (ns : BlobStore)
    (h : st.blockList ≠ []) (hr : (commitAttempt st cf).result = Except.ok (some ns)) :
    onStop st cf =
      { st with
        commitCalls := st.commitCalls + (commitAttempt st cf).calls
        lastCommitIds := some st.blockList
        store := ns
        recordings := st.recordings ++ [{ name := st.blobName, url := blobUrl st.blobName }]
        log := st.log ++ [LogEvent.commitSucceeded] } := by
  have hlen : ¬ st.blockList.length = 0 := by
    simpa [List.length_eq_zero] using h
  simp [onStop, hlen, hr]

/-- A stop whose retry-wrapped commit is exhausted logs the failure and
adds no recording. -/
theorem onStop_err (st : RecorderState) (cf : Nat) (e : Unit)
    (h : st.blockList ≠ []) (hr : (commitAttempt st cf).result = Except.error e) :
    onStop st cf =
      { st with
        commitCalls := st.commitCalls + (commitAttempt st cf).calls
        lastCommitIds := some st.blockList
        log := st.log ++ [LogEvent.commitFailed] } := by
  have hlen : ¬ st.blockList.length = 0 := by
    simpa [List.length_eq_zero] using h
  simp [onStop, hlen, hr]

/-- A stop with a non-empty block list records the ordered identifier
list it passed to the commit call. -/
theorem onStop_nonEmpty_lastIds (st : RecorderState) (cf : Nat) (h : st.blockList ≠ []) :
    (onStop st cf).lastCommitIds = some st.blockList := by
  cases hr : (commitAttempt st cf).result with
  | ok o =>
    cases o with
    | none =>
      exact absurd hr (retry3_result_ne_ok_none _ 1000)
    | some ns => rw [onStop_ok st cf ns h hr]
  | error e => rw [onStop_err st cf e h hr]

/-- The commit retry never reports the loop-skipped result. -/
theorem commitAttempt_ne_ok_none (st : RecorderState) (cf : Nat) :
    (commitAttempt st cf).result ≠ Except.ok none :=
  retry3_result_ne_ok_none _ 1000

/-- C9: invoking a transition with no defined edge from the current
state — `pause` while not recording or while already paused, `resume`
while not recording or while not paused — leaves the component state, in
particular the lifecycle flags and the block-identifier sequence,
entirely unchanged. -/
theorem illegal_transitions_are_noops (st : RecorderState) :
    ((st.isRecording = false ∨ st.isPaused = true) → pauseRecording st = st) ∧
    ((st.isRecording = false ∨ st.isPaused = false) → resumeRecording st = st) := by
  constructor
  · intro h
    unfold pauseRecording
    rcases h with h | h <;> simp [h]
  · intro h
    unfold resumeRecording
    rcases h with h | h <;> simp [h]

/-- Witness for C9 at the Idle mount state. -/
theorem illegal_transitions_are_noops_witness :
    pauseRecording initState = initState ∧ resumeRecording initState = initState :=
  ⟨(illegal_transitions_are_noops initState).1 (Or.inl rfl),
   (illegal_transitions_are_noops initState).2 (Or.inl rfl)⟩

/-- C3: a stop with an empty block-identifier sequence performs no
commit network call, logs only the warning, and produces no
recording. -/
theorem emptyBlockList_skips_finalize (st : RecorderState) (cf : Nat)
    (h : st.blockList = []) :
    onStop st cf = { st with log := st.log ++ [LogEvent.noBlocksToCommit] } ∧
    (onStop st cf).commitCalls = st.commitCalls ∧
    (onStop st cf).lastCommitIds = st.lastCommitIds ∧
    (onStop st cf).recordings = st.recordings ∧
    LogEvent.noBlocksToCommit ∈ (onStop st cf).log := by
  have he := onStop_empty st cf h
  refine ⟨he, ?_, ?_, ?_, ?_⟩ <;> (rw [he]; try simp)

/-- Witness for C3 at the mount state. -/
theorem emptyBlockList_skips_finalize_witness :
    onStop initState 0 = { initState with log := initState.log ++ [LogEvent.noBlocksToCommit] } ∧
    (onStop initState 0).commitCalls = initState.commitCalls ∧
    (onStop initState 0).lastCommitIds = initState.lastCommitIds ∧
    (onStop initState 0).recordings = initState.recordings ∧
    LogEvent.noBlocksToCommit ∈ (onStop initState 0).log :=
  emptyBlockList_skips_finalize initState 0 rfl

/-- C6: a zero-size chunk produces no block, consumes no identifier,
leaves the block list unchanged and logs a warning; in the scenario
C1(500B), C2(0B), C3(300B) exactly the two non-empty chunks are staged,
in emission order. -/
theorem zeroSizeChunk_dropped (st : RecorderState) (p1 p3 : List Nat) (t1 t2 t3 : Nat)
    (hp1 : p1.length = 500) (hp3 : p3.length = 300) (hbl : st.blockList = []) :
    (∀ (s : RecorderState) (now f : Nat),
        onDataAvailable s [] now f = { s with log := s.log ++ [LogEvent.skippedZeroChunk] }) ∧
    (runChunks st [⟨p1, t1, 0⟩, ⟨[], t2, 0⟩, ⟨p3, t3, 0⟩]).blockList
        = [blockIdOf t1, blockIdOf t3] ∧
    (runChunks st [⟨p1, t1, 0⟩, ⟨[], t2, 0⟩, ⟨p3, t3, 0⟩]).store.staged
        = (blockIdOf t3, p3) :: (blockIdOf t1, p1) :: st.store.staged ∧
    LogEvent.skippedZeroChunk ∈ (runChunks st [⟨p1, t1, 0⟩, ⟨[], t2, 0⟩, ⟨p3, t3, 0⟩]).log := by
  have h1 : 0 < p1.length := by omega
  have h3 : 0 < p3.length := by omega
  refine ⟨fun s now f => onData_empty s now f, ?_, ?_, ?_⟩ <;>
    simp only [runChunks] <;>
    rw [onData_pos_staged st p1 t1 0 h1 (by omega), onData_empty,
      onData_pos_staged _ p3 t3 0 h3 (by omega)] <;>
    simp [hbl]

/-- Witness for C6 at concrete payloads of 500 and 300 bytes. -/
theorem zeroSizeChunk_dropped_witness :
    (runChunks initState [⟨List.replicate 500 0, 1, 0⟩, ⟨[], 2, 0⟩,
        ⟨List.replicate 300 1, 3, 0⟩]).blockList = [blockIdOf 1, blockIdOf 3] ∧
    (runChunks initState [⟨List.replicate 500 0, 1, 0⟩, ⟨[], 2, 0⟩,
        ⟨List.replicate 300 1, 3, 0⟩]).store.staged
      = (blockIdOf 3, List.replicate 300 1) :: (blockIdOf 1, List.replicate 500 0)
          :: initState.store.staged ∧
    LogEvent.skippedZeroChunk ∈ (runChunks initState [⟨List.replicate 500 0, 1, 0⟩,
        ⟨[], 2, 0⟩, ⟨List.replicate 300 1, 3, 0⟩]).log :=
  (zeroSizeChunk_dropped initState (List.replicate 500 0) (List.replicate 300 1) 1 2 3
    (by simp) (by simp) rfl).2

/-- C7: a non-empty chunk's identifier is in the sequence even when
every upload attempt fails; the failure is logged, the store and the
recording flag are untouched, a subsequent chunk is still staged, and
the eventual commit call references both identifiers, the failed one
included, in emission order. -/
theorem failedBlock_kept_in_sequence (st : RecorderState) (p q : List Nat)
    (t u f g cf : Nat)
    (hp : 0 < p.length) (hf : 3 ≤ f) (hq : 0 < q.length) (hg : g < 3) :
    (onDataAvailable st p t f).blockList = st.blockList ++ [blockIdOf t] ∧
    LogEvent.uploadFailed (blockIdOf t) ∈ (onDataAvailable st p t f).log ∧
    (onDataAvailable st p t f).store = st.store ∧
    (onDataAvailable st p t f).isRecording = st.isRecording ∧
    (onDataAvailable (onDataAvailable st p t f) q u g).blockList
      = st.blockList ++ [blockIdOf t, blockIdOf u] ∧
    (blockIdOf u, q) ∈ (onDataAvailable (onDataAvailable st p t f) q u g).store.staged ∧
    (onStop (onDataAvailable (onDataAvailable st p t f) q u g) cf).lastCommitIds
      = some (st.blockList ++ [blockIdOf t, blockIdOf u]) ∧
    blockIdOf t ∈ st.blockList ++ [blockIdOf t, blockIdOf u] := by
  have e1 := onData_pos_failed st p t f hp hf
  have e2 := onData_pos_staged (onDataAvailable st p t f) q u g hq hg
  rw [e1] at e2
  have hbl : (onDataAvailable (onDataAvailable st p t f) q u g).blockList
      = st.blockList ++ [blockIdOf t, blockIdOf u] := by
    rw [e1, e2]; simp
  refine ⟨?_, ?_, ?_, ?_, hbl, ?_, ?_, ?_⟩
  · rw [e1]
  · rw [e1]; simp
  · rw [e1]
  · rw [e1]
  · rw [e1, e2]; simp
  · rw [onStop_nonEmpty_lastIds _ cf (by rw [hbl]; simp), hbl]
  · simp

/-- Witness for C7 at concrete one-byte chunks. -/
theorem failedBlock_kept_in_sequence_witness :
    (onDataAvailable initState [7] 1 3).blockList = initState.blockList ++ [blockIdOf 1] ∧
    LogEvent.uploadFailed (blockIdOf 1) ∈ (onDataAvailable initState [7] 1 3).log ∧
    (onDataAvailable initState [7] 1 3).store = initState.store ∧
    (onDataAvailable initState [7] 1 3).isRecording = initState.isRecording ∧
    (onDataAvailable (onDataAvailable initState [7] 1 3) [8] 2 0).blockList
      = initState.blockList ++ [blockIdOf 1, blockIdOf 2] ∧
    (blockIdOf 2, [8]) ∈ (onDataAvailable (onDataAvailable initState [7] 1 3) [8] 2 0).store.staged ∧
    (onStop (onDataAvailable (onDataAvailable initState [7] 1 3) [8] 2 0) 0).lastCommitIds
      = some (initState.blockList ++ [blockIdOf 1, blockIdOf 2]) ∧
    blockIdOf 1 ∈ initState.blockList ++ [blockIdOf 1, blockIdOf 2] :=
  failedBlock_kept_in_sequence initState [7] [8] 1 2 3 0 0
    (by simp) (by omega) (by simp) (by omega)

/-- C2: no chunk delivery ever appends a recording, and a stop appends
the committed recording exactly when the retry-wrapped commit call
succeeded; when the commit is skipped for an empty block list or fails
after exhausting its retries, the recordings list is unchanged. -/
theorem committedRecording_requires_commit :
    (∀ (st : RecorderState) (cs : List ChunkEv), (runChunks st cs).recordings = st.recordings) ∧
    (∀ (st : RecorderState) (cf : Nat),
      ((st.blockList = [] ∨ ∃ e, (commitAttempt st cf).result = Except.error e) ∧
        (onStop st cf).recordings = st.recordings) ∨
      ((∃ ns, (commitAttempt st cf).result = Except.ok (some ns)) ∧
        (onStop st cf).recordings
          = st.recordings ++ [{ name := st.blobName, url := blobUrl st.blobName }])) := by
  constructor
  · intro st cs; exact (runChunks_frame cs st).1
  · intro st cf
    by_cases hbl : st.blockList = []
    · left
      refine ⟨Or.inl hbl, ?_⟩
      rw [onStop_empty st cf hbl]
    · cases hr : (commitAttempt st cf).result with
      | ok o =>
        cases o with
        | none => exact absurd hr (commitAttempt_ne_ok_none st cf)
        | some ns =>
          right
          refine ⟨⟨ns, rfl⟩, ?_⟩
          rw [onStop_ok st cf ns hbl hr]
      | error e =>
        left
        refine ⟨Or.inr ⟨e, rfl⟩, ?_⟩
        rw [onStop_err st cf e hbl hr]

/-! Injectivity of the block-identifier generation. -/

/-- The decimal digit emitter is correct with enough fuel. -/
theorem fromDigits_decDigitsAux : ∀ (fuel n : Nat), n ≤ fuel →
    fromDigits (decDigitsAux fuel n) = n := by
  intro fuel
  induction fuel with
  | zero =>
    intro n h
    have hn : n = 0 := by omega
    subst hn; rfl
  | succ f ih =>
    intro n h
    cases n with
    | zero => rfl
    | succ m =>
      have hdiv : (m + 1) / 10 ≤ f := by omega
      simp only [decDigitsAux, fromDigits, ih ((m + 1) / 10) hdiv]
      omega

/-- The decimal digit list determines the number. -/
theorem fromDigits_decDigits (n : Nat) : fromDigits (decDigits n) = n :=
  fromDigits_decDigitsAux n n (Nat.le_refl n)

/-- Every emitted decimal digit is below ten. -/
theorem decDigitsAux_lt : ∀ (fuel n d : Nat), d ∈ decDigitsAux fuel n → d < 10 := by
  intro fuel
  induction fuel with
  | zero => intro n d h; simp [decDigitsAux] at h
  | succ f ih =>
    intro n d h
    cases n with
    | zero => simp [decDigitsAux] at h
    | succ m =>
      simp only [decDigitsAux, List.mem_cons] at h
      rcases h with h | h
      · omega
      · exact ih _ _ h

/-- Alphabet characters are pairwise distinct. -/
theorem b64char_inj : ∀ i < 64, ∀ j < 64, b64char i = b64char j → i = j := by decide

/-- Alphabet characters are never the padding character. -/
theorem b64char_ne_pad : ∀ i < 64, ¬(b64char i = '=') := by decide

/-- Alphabet characters are members of the alphabet. -/
theorem b64char_mem : ∀ i < 64, b64alphabet.contains (b64char i) = true := by decide

/-- Encoding is empty only for empty input. -/
theorem b64encode_eq_nil : ∀ (xs : List Nat), b64encode xs = [] → xs = [] := by
  intro xs h
  rcases xs with _ | ⟨a, _ | ⟨b, _ | ⟨c, r⟩⟩⟩
  · rfl
  · simp [b64encode] at h
  · simp [b64encode] at h
  · simp [b64encode] at h

/-- Encoding is injective on byte sequences, graded by a length bound. -/
theorem b64encode_inj_len : ∀ (n : Nat) (xs ys : List Nat), xs.length ≤ n →
    (∀ b ∈ xs, b < 256) → (∀ b ∈ ys, b < 256) →
    b64encode xs = b64encode ys → xs = ys := by
  intro n
  induction n with
  | zero =>
    intro xs ys hlen hx hy h
    have hxe : xs = [] := List.length_eq_zero.mp (Nat.le_zero.mp hlen)
    subst hxe
    exact (b64encode_eq_nil ys h.symm).symm
  | succ n ih =>
    intro xs ys hlen hx hy h
    rcases xs with _ | ⟨a, _ | ⟨b, _ | ⟨c, r⟩⟩⟩
    · exact (b64encode_eq_nil ys h.symm).symm
    · rcases ys with _ | ⟨a2, _ | ⟨b2, _ | ⟨c2, r2⟩⟩⟩
      · simp [b64encode] at h
      · have ha : a < 256 := hx a (by simp)
        have ha2 : a2 < 256 := hy a2 (by simp)
        simp only [b64encode, List.cons.injEq, and_true] at h
        obtain ⟨h1, h2⟩ := h
        have e1 := b64char_inj _ (by omega) _ (by omega) h1
        have e2 := b64char_inj _ (by omega) _ (by omega) h2
        have : a = a2 := by omega
        rw [this]
      · have hb2 : b2 < 256 := hy b2 (by simp)
        simp only [b64encode, List.cons.injEq, and_true] at h
        obtain ⟨-, -, h3⟩ := h
        exact absurd h3.symm (b64char_ne_pad _ (by omega))
      · have hb2 : b2 < 256 := hy b2 (by simp)
        have hc2 : c2 < 256 := hy c2 (by simp)
        simp only [b64encode, List.cons.injEq] at h
        obtain ⟨-, -, h3, -⟩ := h
        exact absurd h3.symm (b64char_ne_pad _ (by omega))
    · rcases ys with _ | ⟨a2, _ | ⟨b2, _ | ⟨c2, r2⟩⟩⟩
      · simp [b64encode] at h
      · have hb : b < 256 := hx b (by simp)
        simp only [b64encode, List.cons.injEq, and_true] at h
        obtain ⟨-, -, h3⟩ := h
        exact absurd h3 (b64char_ne_pad _ (by omega))
      · have ha : a < 256 := hx a (by simp)
        have hb : b < 256 := hx b (by simp)
        have ha2 : a2 < 256 := hy a2 (by simp)
        have hb2 : b2 < 256 := hy b2 (by simp)
        simp only [b64encode, List.cons.injEq, and_true] at h
        obtain ⟨h1, h2, h3⟩ := h
        have e1 := b64char_inj _ (by omega) _ (by omega) h1
        have e2 := b64char_inj _ (by omega) _ (by omega) h2
        have e3 := b64char_inj _ (by omega) _ (by omega) h3
        have hab : a = a2 ∧ b = b2 := by omega
        rw [hab.1, hab.2]
      · have hb : b < 256 := hx b (by simp)
        have hb2 : b2 < 256 := hy b2 (by simp)
        have hc2 : c2 < 256 := hy c2 (by simp)
        simp only [b64encode, List.cons.injEq] at h
        obtain ⟨-, -, -, h4, -⟩ := h
        exact absurd h4.symm (b64char_ne_pad _ (by omega))
    · rcases ys with _ | ⟨a2, _ | ⟨b2, _ | ⟨c2, r2⟩⟩⟩
      · simp [b64encode] at h
      · have hb : b < 256 := hx b (by simp)
        have hc : c < 256 := hx c (by simp)
        simp only [b64encode, List.cons.injEq] at h
        obtain ⟨-, -, h3, -⟩ := h
        exact absurd h3 (b64char_ne_pad _ (by omega))
      · have hb : b < 256 := hx b (by simp)
        have hc : c < 256 := hx c (by simp)
        simp only [b64encode, List.cons.injEq] at h
        obtain ⟨-, -, -, h4, -⟩ := h
        exact absurd h4 (b64char_ne_pad _ (by omega))
      · have ha : a < 256 := hx a (by simp)
        have hb : b < 256 := hx b (by simp)
        have hc : c < 256 := hx c (by simp)
        have ha2 : a2 < 256 := hy a2 (by simp)
        have hb2 : b2 < 256 := hy b2 (by simp)
        have hc2 : c2 < 256 := hy c2 (by simp)
        simp only [b64encode, List.cons.injEq] at h
        obtain ⟨h1, h2, h3, h4, h5⟩ := h
        have e1 := b64char_inj _ (by omega) _ (by omega) h1
        have e2 := b64char_inj _ (by omega) _ (by omega) h2
        have e3 := b64char_inj _ (by omega) _ (by omega) h3
        have e4 := b64char_inj _ (by omega) _ (by omega) h4
        have habc : a = a2 ∧ b = b2 ∧ c = c2 := by omega
        have hrec := ih r r2 (by simp at hlen; omega)
          (fun x hxm => hx x (by simp [hxm]))
          (fun x hxm => hy x (by simp [hxm])) h5
        rw [habc.1, habc.2.1, habc.2.2, hrec]

/-- Encoding is injective on byte sequences. -/
theorem b64encode_inj (xs ys : List Nat)
    (hx : ∀ b ∈ xs, b < 256) (hy : ∀ b ∈ ys, b < 256)
    (h : b64encode xs = b64encode ys) : xs = ys :=
  b64encode_inj_len xs.length xs ys (Nat.le_refl _) hx hy h

/-- Block-identifier input bytes are valid bytes. -/
theorem blockIdBytes_valid (now : Nat) : ∀ b ∈ blockIdBytes now, b < 256 := by
  intro b hb
  have hb2 : b ∈ blockMarkerBytes ++ decimalBytes now := hb
  rcases List.mem_append.mp hb2 with h | h
  · simp only [blockMarkerBytes, List.mem_cons, List.not_mem_nil, or_false] at h
    rcases h with rfl | rfl | rfl | rfl | rfl | rfl <;> omega
  · simp only [decimalBytes, List.mem_map, List.mem_reverse] at h
    obtain ⟨d, hd, rfl⟩ := h
    have := decDigitsAux_lt now now d hd
    omega

/-- Block-identifier generation is injective in the timestamp. -/
theorem blockIdOf_inj (n m : Nat) (h : blockIdOf n = blockIdOf m) : n = m := by
  unfold blockIdOf at h
  have hdata : b64encode (blockIdBytes n) = b64encode (blockIdBytes m) :=
    congrArg String.data h
  have hbytes := b64encode_inj _ _ (blockIdBytes_valid n) (blockIdBytes_valid m) hdata
  simp only [blockIdBytes, blockMarkerBytes, List.cons_append, List.nil_append,
    List.cons.injEq, true_and] at hbytes
  have hmaps := congrArg (List.map (fun x => x - 48)) hbytes
  simp only [decimalBytes, List.map_map] at hmaps
  have hcomp : ∀ (l : List Nat), l.map ((fun x => x - 48) ∘ (fun d => 48 + d)) = l := by
    intro l
    have : ((fun x => x - 48) ∘ (fun d => 48 + d) : Nat → Nat) = fun d => d := by
      funext d
      simp
    rw [this, List.map_id']
  rw [hcomp, hcomp] at hmaps
  have hrev := congrArg List.reverse hmaps
  simp only [List.reverse_reverse] at hrev
  have := congrArg fromDigits hrev
  rwa [show decDigits n = decDigitsAux n n from rfl,
    show decDigits m = decDigitsAux m m from rfl,
    fromDigits_decDigitsAux n n (Nat.le_refl n),
    fromDigits_decDigitsAux m m (Nat.le_refl m)] at this

/-- Every character the encoder emits is an alphabet character or
padding. -/
theorem b64char_safe (i : Nat) : (b64alphabet.contains (b64char i) || (b64char i = '=')) = true := by
  by_cases h : i < 64
  · rw [b64char_mem i h, Bool.true_or]
  · have hpad : b64char i = '=' := by
      unfold b64char
      apply List.getD_eq_default
      have hl : b64alphabet.length = 64 := rfl
      omega
    simp [hpad]

/-- Transport safety of an encoded byte sequence, graded by a length
bound. -/
theorem b64encode_safe_len : ∀ (n : Nat) (xs : List Nat), xs.length ≤ n →
    ∀ ch ∈ b64encode xs, (b64alphabet.contains ch || (ch = '=')) = true := by
  intro n
  induction n with
  | zero =>
    intro xs hlen ch hch
    have hxe : xs = [] := List.length_eq_zero.mp (Nat.le_zero.mp hlen)
    subst hxe
    simp [b64encode] at hch
  | succ n ih =>
    intro xs hlen ch hch
    rcases xs with _ | ⟨a, _ | ⟨b, _ | ⟨c, r⟩⟩⟩
    · simp [b64encode] at hch
    · simp only [b64encode, List.mem_cons, List.not_mem_nil, or_false] at hch
      rcases hch with rfl | rfl | rfl | rfl <;> first | exact b64char_safe _ | simp
    · simp only [b64encode, List.mem_cons, List.not_mem_nil, or_false] at hch
      rcases hch with rfl | rfl | rfl | rfl <;> first | exact b64char_safe _ | simp
    · simp only [b64encode, List.mem_cons] at hch
      rcases hch with rfl | rfl | rfl | rfl | hch
      · exact b64char_safe _
      · exact b64char_safe _
      · exact b64char_safe _
      · exact b64char_safe _
      · exact ih r (by simp at hlen; omega) ch hch

/-- Every generated block identifier is transport-safe. -/
theorem blockIdOf_safe (now : Nat) : isTransportSafe (blockIdOf now) = true := by
  unfold isTransportSafe blockIdOf
  rw [List.all_eq_true]
  intro ch hch
  exact b64encode_safe_len (blockIdBytes now).length _ (Nat.le_refl _) ch hch

/-! Session-level invariants of the block-identifier sequence. -/

/-- A non-empty chunk appends exactly one identifier, whatever the
upload outcome. -/
theorem onData_pos_blockList (st : RecorderState) (p : List Nat) (now f : Nat)
    (hp : 0 < p.length) :
    (onDataAvailable st p now f).blockList = st.blockList ++ [blockIdOf now] := by
  unfold onDataAvailable
  rw [if_pos hp]
  cases (retry (attemptOutcome f) 3 1000).result <;> rfl

/-- The block list after a chunk run is the previous list extended by
one fresh identifier per non-empty chunk, in emission order. -/
theorem runChunks_blockList : ∀ (cs : List ChunkEv) (st : RecorderState),
    (runChunks st cs).blockList
      = st.blockList ++ (nonEmptyChunks cs).map (fun c => blockIdOf c.now) := by
  intro cs
  induction cs with
  | nil => intro st; simp [runChunks, nonEmptyChunks]
  | cons c cs ih =>
    intro st
    simp only [runChunks]
    rw [ih]
    by_cases hc : 0 < c.payload.length
    · rw [onData_pos_blockList st c.payload c.now c.stageFailures hc]
      simp [nonEmptyChunks, List.filter_cons, hc]
    · have hp : c.payload = [] := List.length_eq_zero.mp (by omega)
      rw [hp, onData_empty]
      simp [nonEmptyChunks, List.filter_cons, hc]

/-- Fields the stop button never writes. -/
theorem stopRecording_frame (st : RecorderState) :
    (stopRecording st).blockList = st.blockList ∧
    (stopRecording st).store = st.store ∧
    (stopRecording st).blobName = st.blobName ∧
    (stopRecording st).recordings = st.recordings ∧
    (stopRecording st).commitCalls = st.commitCalls ∧
    (stopRecording st).lastCommitIds = st.lastCommitIds := by
  unfold stopRecording
  split <;> simp

/-- Starting a session resets the block list. -/
theorem startRecording_blockList (st : RecorderState) (sup : String → Bool)
    (now : Nat) (ext : String) (hsup : getMediaRecorderConfig sup = some ext) :
    (startRecording st sup now).blockList = [] ∧
    (startRecording st sup now).store = st.store := by
  unfold startRecording
  rw [hsup]
  exact ⟨rfl, rfl⟩

/-- C8: within one session with pairwise-distinct chunk timestamps, the
generated block identifiers are pairwise distinct, each one is a
transport-safe base64 string, the staged sequence matches chunk emission
order, and the commit call references exactly that sequence in that
order. -/
theorem blockIds_unique_ordered (sup : String → Bool) (ext : String) (t0 : Nat)
    (chunks : List ChunkEv) (cf : Nat)
    (hsup : getMediaRecorderConfig sup = some ext)
    (hdist : (nonEmptyChunks chunks).Pairwise (fun a b => a.now ≠ b.now)) :
    (runChunks (startRecording initState sup t0) chunks).blockList
      = (nonEmptyChunks chunks).map (fun c => blockIdOf c.now) ∧
    ((runChunks (startRecording initState sup t0) chunks).blockList).Nodup ∧
    (∀ bid ∈ (runChunks (startRecording initState sup t0) chunks).blockList,
      isTransportSafe bid = true) ∧
    ((runChunks (startRecording initState sup t0) chunks).blockList ≠ [] →
      (onStop (stopRecording (runChunks (startRecording initState sup t0) chunks)) cf).lastCommitIds
        = some ((runChunks (startRecording initState sup t0) chunks).blockList)) := by
  have hstart := startRecording_blockList initState sup t0 ext hsup
  have hbl := runChunks_blockList chunks (startRecording initState sup t0)
  rw [hstart.1, List.nil_append] at hbl
  refine ⟨hbl, ?_, ?_, ?_⟩
  · rw [hbl]
    exact List.Pairwise.map _ (fun a b hab heq => hab (blockIdOf_inj _ _ heq)) hdist
  · intro bid hmem
    rw [hbl] at hmem
    obtain ⟨c, -, rfl⟩ := List.mem_map.mp hmem
    exact blockIdOf_safe c.now
  · intro hne
    have hsf := stopRecording_frame (runChunks (startRecording initState sup t0) chunks)
    have hne2 : (stopRecording (runChunks (startRecording initState sup t0) chunks)).blockList ≠ [] := by
      rw [hsf.1]; exact hne
    rw [onStop_nonEmpty_lastIds _ cf hne2, hsf.1]

/-- Witness for C8 at a two-chunk session with distinct timestamps. -/
theorem blockIds_unique_ordered_witness :
    (runChunks (startRecording initState (fun _ => true) 0) [⟨[1], 1, 0⟩, ⟨[2], 2, 0⟩]).blockList
      = (nonEmptyChunks [⟨[1], 1, 0⟩, ⟨[2], 2, 0⟩]).map (fun c => blockIdOf c.now) ∧
    ((runChunks (startRecording initState (fun _ => true) 0) [⟨[1], 1, 0⟩, ⟨[2], 2, 0⟩]).blockList).Nodup ∧
    (∀ bid ∈ (runChunks (startRecording initState (fun _ => true) 0) [⟨[1], 1, 0⟩, ⟨[2], 2, 0⟩]).blockList,
      isTransportSafe bid = true) ∧
    ((runChunks (startRecording initState (fun _ => true) 0) [⟨[1], 1, 0⟩, ⟨[2], 2, 0⟩]).blockList ≠ [] →
      (onStop (stopRecording (runChunks (startRecording initState (fun _ => true) 0)
          [⟨[1], 1, 0⟩, ⟨[2], 2, 0⟩])) 0).lastCommitIds
        = some ((runChunks (startRecording initState (fun _ => true) 0)
            [⟨[1], 1, 0⟩, ⟨[2], 2, 0⟩]).blockList)) :=
  blockIds_unique_ordered (fun _ => true) "webm" 0 [⟨[1], 1, 0⟩, ⟨[2], 2, 0⟩] 0 rfl (by decide)

/-- The staged store after a chunk run whose uploads all succeed holds
exactly the non-empty chunks' blocks, most recent first. -/
theorem runChunks_staged : ∀ (cs : List ChunkEv) (st : RecorderState),
    (∀ c ∈ cs, c.stageFailures < 3) →
    (runChunks st cs).store.staged
      = ((nonEmptyChunks cs).map (fun c => (blockIdOf c.now, c.payload))).reverse
          ++ st.store.staged := by
  intro cs
  induction cs with
  | nil => intro st h; simp [runChunks, nonEmptyChunks]
  | cons c cs ih =>
    intro st h
    have htail : ∀ x ∈ cs, x.stageFailures < 3 := fun x hx => h x (List.mem_cons_of_mem c hx)
    simp only [runChunks]
    rw [ih (onDataAvailable st c.payload c.now c.stageFailures) htail]
    by_cases hc : 0 < c.payload.length
    · rw [onData_pos_staged st c.payload c.now c.stageFailures hc (h c (List.mem_cons_self c cs))]
      simp [nonEmptyChunks, List.filter_cons, hc, List.reverse_cons, List.append_assoc]
    · have hp : c.payload = [] := List.length_eq_zero.mp (by omega)
      rw [hp, onData_empty]
      simp [nonEmptyChunks, List.filter_cons, hc]

/-- Lookup in a staged list with pairwise-distinct keys retrieves the
stored payload. -/
theorem findPayload_eq : ∀ (l : List (String × List Nat)) (k : String) (v : List Nat),
    (l.map Prod.fst).Nodup → (k, v) ∈ l → findPayload k l = some v := by
  intro l
  induction l with
  | nil => intro k v _ hm; simp at hm
  | cons p rest ih =>
    intro k v hnd hm
    obtain ⟨k1, v1⟩ := p
    have hnd2 : (∀ x, (k1, x) ∉ rest) ∧ (rest.map Prod.fst).Nodup := by simpa using hnd
    by_cases hk : k1 = k
    · subst hk
      rcases List.mem_cons.mp hm with heq | hrest
      · injection heq with h1 h2
        subst h2
        simp [findPayload]
      · exact absurd hrest (hnd2.1 v)
    · have hrest : (k, v) ∈ rest := by
        rcases List.mem_cons.mp hm with heq | hr
        · exact absurd (congrArg Prod.fst heq).symm hk
        · exact hr
      simp only [findPayload, if_neg hk]
      exact ih k v hnd2.2 hrest

/-- Looking up the key column of a pair list whose lookups all succeed
returns the value column. -/
theorem lookupAll_map_fst : ∀ (ps staged : List (String × List Nat)),
    (∀ p ∈ ps, findPayload p.1 staged = some p.2) →
    lookupAll staged (ps.map Prod.fst) = some (ps.map Prod.snd) := by
  intro ps
  induction ps with
  | nil => intro staged _; rfl
  | cons p ps ih =>
    intro staged h
    simp only [List.map_cons, lookupAll]
    rw [h p (List.mem_cons_self p ps),
      ih staged (fun x hx => h x (List.mem_cons_of_mem p hx))]

/-- A commit whose store-level call succeeds and whose environment
fails fewer than three attempts yields the committed store. -/
theorem commitRetry_ok (st : RecorderState) (cf : Nat) (hcf : cf < 3) (ns : BlobStore)
    (hc : st.store.commitOp st.blockList = Except.ok ns) :
    (commitAttempt st cf).result = Except.ok (some ns) := by
  unfold commitAttempt
  rw [retry3_cases]
  interval_cases cf <;> simp [hc]

/-- C1: a session whose chunk timestamps are pairwise distinct, with at
least one non-empty chunk, every staged upload succeeding within the
retry budget, and the commit succeeding within its budget, commits
exactly the concatenation of the non-empty chunk payloads in emission
order. -/
theorem committed_equals_concat (sup : String → Bool) (ext : String) (t0 : Nat)
    (chunks : List ChunkEv) (cf : Nat)
    (hsup : getMediaRecorderConfig sup = some ext)
    (hne : nonEmptyChunks chunks ≠ [])
    (hstage : ∀ c ∈ chunks, c.stageFailures < 3)
    (hcf : cf < 3)
    (hdist : (nonEmptyChunks chunks).Pairwise (fun a b => a.now ≠ b.now)) :
    (runSession sup t0 chunks cf).store.committed
      = some (((nonEmptyChunks chunks).map ChunkEv.payload).flatten) := by
  have hstart := startRecording_blockList initState sup t0 ext hsup
  have hRbl0 := runChunks_blockList chunks (startRecording initState sup t0)
  rw [hstart.1, List.nil_append] at hRbl0
  have hRst0 := runChunks_staged chunks (startRecording initState sup t0) hstage
  have hS0staged : (startRecording initState sup t0).store.staged = [] := by
    rw [hstart.2]
    rfl
  rw [hS0staged, List.append_nil] at hRst0
  have hsf := stopRecording_frame (runChunks (startRecording initState sup t0) chunks)
  have hfun1 : (Prod.fst ∘ fun c : ChunkEv => (blockIdOf c.now, c.payload))
      = fun c : ChunkEv => blockIdOf c.now := by
    funext c
    rfl
  have hfun2 : (Prod.snd ∘ fun c : ChunkEv => (blockIdOf c.now, c.payload))
      = ChunkEv.payload := by
    funext c
    rfl
  have hTbl : (stopRecording (runChunks (startRecording initState sup t0) chunks)).blockList
      = ((nonEmptyChunks chunks).map (fun c => (blockIdOf c.now, c.payload))).map Prod.fst := by
    rw [hsf.1, hRbl0, List.map_map, hfun1]
  have hTst : (stopRecording (runChunks (startRecording initState sup t0) chunks)).store.staged
      = ((nonEmptyChunks chunks).map (fun c => (blockIdOf c.now, c.payload))).reverse := by
    rw [hsf.2.1, hRst0]
  have hids : ((nonEmptyChunks chunks).map (fun c => blockIdOf c.now)).Nodup :=
    List.Pairwise.map _ (fun a b hab heq => hab (blockIdOf_inj _ _ heq)) hdist
  have hkeys : ((((nonEmptyChunks chunks).map
      (fun c => (blockIdOf c.now, c.payload))).reverse).map Prod.fst).Nodup := by
    rw [List.map_reverse, List.map_map, List.nodup_reverse, hfun1]
    exact hids
  have hfind : ∀ p ∈ (nonEmptyChunks chunks).map (fun c => (blockIdOf c.now, c.payload)),
      findPayload p.1 (((nonEmptyChunks chunks).map
        (fun c => (blockIdOf c.now, c.payload))).reverse) = some p.2 := by
    intro p hp
    apply findPayload_eq _ _ _ hkeys
    rw [Prod.mk.eta, List.mem_reverse]
    exact hp
  have hlook := lookupAll_map_fst
    ((nonEmptyChunks chunks).map (fun c => (blockIdOf c.now, c.payload))) _ hfind
  have hcommit : (stopRecording (runChunks (startRecording initState sup t0) chunks)).store.commitOp
      (stopRecording (runChunks (startRecording initState sup t0) chunks)).blockList
      = Except.ok
          { staged := ((nonEmptyChunks chunks).map (fun c => (blockIdOf c.now, c.payload))).reverse
            committed := some ((((nonEmptyChunks chunks).map
              (fun c => (blockIdOf c.now, c.payload))).map Prod.snd).flatten) } := by
    unfold BlobStore.commitOp
    rw [hTst, hTbl, hlook]
  have hres := commitRetry_ok _ cf hcf _ hcommit
  have hblne : (stopRecording (runChunks (startRecording initState sup t0) chunks)).blockList ≠ [] := by
    rw [hTbl]
    simp [hne]
  have hstop := onStop_ok _ cf _ hblne hres
  show (onStop (stopRecording (runChunks (startRecording initState sup t0) chunks)) cf).store.committed = _
  rw [hstop]
  simp only [List.map_map, hfun2]

/-- Witness for C1 at a three-chunk session including one empty chunk
and one retried upload. -/
theorem committed_equals_concat_witness :
    (runSession (fun _ => true) 0 [⟨[1, 2], 5, 0⟩, ⟨[], 6, 0⟩, ⟨[3], 7, 1⟩] 1).store.committed
      = some (((nonEmptyChunks [⟨[1, 2], 5, 0⟩, ⟨[], 6, 0⟩, ⟨[3], 7, 1⟩]).map
          ChunkEv.payload).flatten) :=
  committed_equals_concat (fun _ => true) "webm" 0
    [⟨[1, 2], 5, 0⟩, ⟨[], 6, 0⟩, ⟨[3], 7, 1⟩] 1 rfl (by decide) (by decide) (by omega) (by decide)
